import Mathlib

/-!
Shallow embedding of the notebook `dm-clustering.ipynb`.

Strings from the notebook are modelled as `List Char`, word-embedding
vectors as `List ℚ`, and the Python dict `words` as an association list
with unique keys.  Each definition below is translated from a concrete
cell of the notebook; the cell is cited in its doc comment.
-/

/-- An embedding vector (`nlp(word).vector` values), componentwise rational. -/
abbrev Vec := List ℚ

/-- Auxiliary for `pySplit`: walks the characters, accumulating the current
word (reversed) in `acc`. -/
def pySplitAux : List Char → List Char → List (List Char)
  | [], acc => if acc = [] then [] else [acc.reverse]
  | c :: cs, acc =>
    if c.isWhitespace then
      if acc = [] then pySplitAux cs []
      else acc.reverse :: pySplitAux cs []
    else pySplitAux cs (c :: acc)

/-- Python `str.split()` with no argument: split on runs of whitespace and
drop empty pieces (used as `raw_text.split()` and `phrase.split()`). -/
def pySplit (s : List Char) : List (List Char) := pySplitAux s []

/-- Python `str.lower()` on a word (`word.lower()` in the dict comprehension). -/
def lowerWord (w : List Char) : List Char := w.map Char.toLower

/-- `np.any(v)` on an embedding vector: true iff some component is nonzero. -/
def nonzeroVec (v : Vec) : Bool := v.any (fun x => decide (x ≠ 0))

/-- Dict insertion with Python overwrite semantics: any previous binding of
the key is replaced by the new one.  Keys stay unique. -/
def dictInsert (k : List Char) (v : Vec) (m : List (List Char × Vec)) :
    List (List Char × Vec) :=
  m.filter (fun kv => kv.1 ≠ k) ++ [(k, v)]

/-- The dict comprehension of the notebook:
`words = {word.lower(): nlp(word).vector for word in set(raw_text.split())
          if np.any(nlp(word).vector)}`.
`nlpVec` models the pretrained lookup `nlp(word).vector`; `set(...)` is
modelled by `dedup` of the split. -/
def buildWords (nlpVec : List Char → Vec) (raw : List Char) :
    List (List Char × Vec) :=
  ((pySplit raw).dedup).foldl
    (fun m w => if nonzeroVec (nlpVec w) then dictInsert (lowerWord w) (nlpVec w) m else m)
    []

/-- Dict lookup `words[w]` guarded by `w in words`. -/
def lookupKey (m : List (List Char × Vec)) (k : List Char) : Option Vec :=
  (m.find? (fun kv => kv.1 = k)).map Prod.snd

/-- The inner comprehension `[words[w] for w in phrase if w in words]`:
Python iterates a *string* character by character, so each `w` is a
one-character string looked up in the dict. -/
def charVectors (words : List (List Char × Vec)) (phrase : List Char) : List Vec :=
  phrase.filterMap (fun c => lookupKey words [c])

/-- Componentwise vector addition (`np.mean`'s summation, axis=0). -/
def addVec (v w : Vec) : Vec := List.zipWith (· + ·) v w

/-- `np.mean(l, axis=0)`: componentwise mean of a list of vectors; on the
empty list NumPy produces `nan`, modelled as `none`. -/
def npMean : List Vec → Option Vec
  | [] => none
  | v :: vs => some ((vs.foldl addVec v).map (fun x => x / ((vs.length : ℚ) + 1)))

/-- One row of the sentence-embedding matrix as the code computes it:
`np.mean([words[w] for w in phrase if w in words], axis=0)`. -/
def rowOf (words : List (List Char × Vec)) (phrase : List Char) : Option Vec :=
  npMean (charVectors words phrase)

/-- Modelled from the spec: the row the documentation describes — the mean
of the embedding vectors of the *words* of the phrase that are present in
the word-embedding mapping ("average of word vectors for each word
appearing in the sentence").  Used only to compare against `rowOf`. -/
def meanWordVectorRow (words : List (List Char × Vec)) (phrase : List Char) :
    Option Vec :=
  npMean ((pySplit phrase).filterMap (fun w => lookupKey words w))

/-- The sentence-embedding matrix builder:
`X = np.vstack([np.mean([words[w] for w in phrase if w in words], axis=0)
                for phrase in phrases if len(phrase.split()) >= 5])`. -/
def sentenceMatrix (words : List (List Char × Vec)) (phrases : List (List Char)) :
    List (Option Vec) :=
  phrases.filterMap
    (fun p => if 5 ≤ (pySplit p).length then some (rowOf words p) else none)

/-- Concrete pretrained-lookup used in the closed evaluations below: every
word gets the one-dimensional vector `[1]`. -/
def exNlpVec : List Char → Vec := fun _ => [1]

/-- Concrete scraped text "ab": its only word is `ab`. -/
def exRaw : List Char := "ab".data

/-- The word mapping built from `exRaw`: `{ "ab" ↦ [1] }`. -/
def exWords : List (List Char × Vec) := buildWords exNlpVec exRaw

/-- A phrase of five known words (passes the length filter). -/
def exPhrase : List Char := "ab ab ab ab ab".data

/-- A phrase of five words none of whose characters is a dict key. -/
def exPhrase2 : List Char := "zz qq rr ss tt".data

/-- `ndf = df.iloc[:, 1:-1].to_numpy()`: drop the first and last column of
every row of the loaded table. -/
def ilocMatrix {α : Type} (df : List (List α)) : List (List α) :=
  df.map (fun r => (r.drop 1).dropLast)

/-- `k_range = range(2, 20)`: the candidate cluster counts 2, 3, ..., 19. -/
def kRange : List Nat := List.range' 2 18

/-- The silhouette sweep loop:
`for k in k_range: kmeans = KMeans(n_clusters=k); labels = kmeans.fit_predict(X);
 score = silhouette_score(X, labels, metric='euclidean'); scores.append((k, score))`.
`fitPredict k` models `KMeans(n_clusters=k).fit_predict(X)` and `sil` models
`silhouette_score(X, ·, metric='euclidean')`. -/
def silhouetteSweep (fitPredict : Nat → List Int) (sil : List Int → ℚ) :
    List (Nat × ℚ) :=
  kRange.foldl (fun scores k => scores ++ [(k, sil (fitPredict k))]) []

/-- `raw_text.replace('\n', '')`: delete every newline character. -/
def removeNewlines (s : List Char) : List Char := s.filter (fun c => c ≠ '\n')

/-- Python `str.split('.')`: cut the string at each period. -/
def splitOnDot : List Char → List (List Char)
  | [] => [[]]
  | c :: cs =>
    if c = '.' then [] :: splitOnDot cs
    else
      match splitOnDot cs with
      | [] => [[c]]
      | p :: ps => (c :: p) :: ps

/-- Python `'.'.join(ps)`: interleave the pieces with periods. -/
def joinDot : List (List Char) → List Char
  | [] => []
  | [p] => p
  | p :: q :: ps => p ++ '.' :: joinDot (q :: ps)

/-- `phrases = raw_text.replace('\n','').split('.')` applied to
`raw_text = ''.join([paragraph.text for paragraph in page])`. -/
def phrasesOf (paragraphs : List (List Char)) : List (List Char) :=
  splitOnDot (removeNewlines paragraphs.flatten)

/-- The scraping cell, with its two effectful dependencies abstracted:
`respond = requests.get(...)` is `get` (an `Except`, since the fetch can
fail) and `BeautifulSoup(...).find_all('p')` is `parse`.  No exception
handler appears in the cell, so an error in `get` is returned as-is. -/
def scrapePhrases (parse : List Char → List (List Char))
    (get : Except String (List Char)) : Except String (List (List Char)) :=
  match get with
  | .error e => .error e
  | .ok body => .ok (phrasesOf (parse body))

/-- The table-loading cells `df = pd.read_table("zoo.tab")` followed by
`ndf = df.iloc[:, 1:-1].to_numpy()`, with the fallible read abstracted as
an `Except`.  No handler appears, so a read error is returned as-is. -/
def loadMatrix (readTable : Except String (List (List ℚ))) :
    Except String (List (List ℚ)) :=
  match readTable with
  | .error e => .error e
  | .ok df => .ok (ilocMatrix df)

/-- Sorted insertion of an integer (ascending). -/
def insertSorted (x : Int) : List Int → List Int
  | [] => [x]
  | y :: ys => if x ≤ y then x :: y :: ys else y :: insertSorted x ys

/-- `np.unique(labels)`: the distinct label values in increasing order. -/
def npUnique (l : List Int) : List Int := l.dedup.foldr insertSorted []

/-- The cluster ids the membership loops print:
`for cluster_id in np.unique(model.labels_): if cluster_id >= 0: print(...)`. -/
def printedClusterIds (labels : List Int) : List Int :=
  (npUnique labels).filter (fun c => decide (0 ≤ c))

/-- `np.where(model.labels_ == cluster_id)[0]`: the observation indices
assigned to a given cluster id. -/
def clusterMembers (labels : List Int) (cid : Int) : List Nat :=
  (List.range labels.length).filter (fun i => decide (labels.getD i 0 = cid))

/-- The full printed membership: one `(cluster_id, member indices)` entry
per non-negative unique label, in the order the loop prints them. -/
def printedMembership (labels : List Int) : List (Int × List Nat) :=
  (printedClusterIds labels).map (fun cid => (cid, clusterMembers labels cid))

/-- `num_words = 5`. -/
def numWords : Nat := 5

/-- `row.argsort()` for one centroid row: the column indices ordered by
ascending weight (ties in some order, as for NumPy's unstable sort). -/
def argsortAsc (row : List ℚ) : List Nat :=
  List.insertionSort (fun a b => row.getD a 0 ≤ row.getD b 0)
    (List.range row.length)

/-- One row of `centroids = model.cluster_centers_.argsort()[:, ::-1]`:
the column indices ordered by descending weight. -/
def centroidsRowOrder (row : List ℚ) : List Nat := (argsortAsc row).reverse

/-- `centroids[i, :num_words]`: the first `num_words` indices of the
descending order. -/
def topTermIndices (row : List ℚ) : List Nat :=
  (centroidsRowOrder row).take numWords

/-- `[terms[j] for j in centroids[i, :num_words]]`: the printed top terms
of one cluster. -/
def topTerms (terms : List (List Char)) (row : List ℚ) : List (List Char) :=
  (topTermIndices row).map (fun j => terms.getD j [])

theorem splitOnDot_ne_nil (s : List Char) : splitOnDot s ≠ [] := by
  cases s with
  | nil => simp [splitOnDot]
  | cons c cs =>
    simp only [splitOnDot]
    split
    · simp
    · cases h : splitOnDot cs <;> simp

theorem joinDot_cons (c : Char) (p : List Char) (ps : List (List Char)) :
    joinDot ((c :: p) :: ps) = c :: joinDot (p :: ps) := by
  cases ps <;> simp [joinDot]

theorem joinDot_splitOnDot (s : List Char) : joinDot (splitOnDot s) = s := by
  induction s with
  | nil => rfl
  | cons c cs ih =>
    simp only [splitOnDot]
    by_cases hc : c = '.'
    · rw [if_pos hc]
      obtain ⟨q, ps, hq⟩ := List.exists_cons_of_ne_nil (splitOnDot_ne_nil cs)
      rw [hq]
      rw [hq] at ih
      simpa [joinDot] using ⟨hc.symm, ih⟩
    · rw [if_neg hc]
      obtain ⟨q, ps, hq⟩ := List.exists_cons_of_ne_nil (splitOnDot_ne_nil cs)
      rw [hq]
      rw [hq] at ih
      simpa [joinDot_cons] using ih

theorem foldl_append_map {β : Type} (g : Nat → β) :
    ∀ (l : List Nat) (acc : List β),
      l.foldl (fun sc k => sc ++ [g k]) acc = acc ++ l.map g
  | [], acc => by simp
  | k :: ks, acc => by
    simp [foldl_append_map g ks]

theorem dropFirstLast_getD {α : Type} (d : α) (r : List α) (j : Nat)
    (hj : j + 2 < r.length) :
    ((r.drop 1).dropLast).getD j d = r.getD (j + 1) d := by
  have h₁ : (r.drop 1).length = r.length - 1 := by simp
  have hjlt : j < (r.drop 1).length - 1 := by
    rw [h₁]
    omega
  rw [List.getD_eq_getElem?_getD, List.getD_eq_getElem?_getD,
    List.dropLast_eq_take, List.getElem?_take, if_pos hjlt, List.getElem?_drop]
  rw [Nat.add_comm 1 j]

theorem dropFirstLast_length {α : Type} (r : List α) :
    ((r.drop 1).dropLast).length = r.length - 2 := by
  simp
  omega

/-- C6: the phrase sequence is the period-split of the newline-stripped
concatenation of the paragraph texts, and joining the phrases back with a
period reconstructs that newline-stripped text exactly. -/
theorem split_join_roundtrip (paragraphs : List (List Char)) :
    phrasesOf paragraphs = splitOnDot (removeNewlines paragraphs.flatten) ∧
    joinDot (phrasesOf paragraphs) = removeNewlines paragraphs.flatten :=
  ⟨rfl, joinDot_splitOnDot _⟩

/-- C7: neither the scraping cell nor the table-loading cell installs any
handler, so a failure of the HTTP fetch or of the file read propagates out
of the operation unchanged. -/
theorem errors_propagate_unhandled (parse : List Char → List (List Char))
    (get : Except String (List Char)) (tbl : Except String (List (List ℚ)))
    (e₁ e₂ : String) (hg : get = .error e₁) (ht : tbl = .error e₂) :
    scrapePhrases parse get = .error e₁ ∧ loadMatrix tbl = .error e₂ := by
  subst hg
  subst ht
  exact ⟨rfl, rfl⟩

/-- Witness for C7: a failed fetch and a missing data file propagate. -/
theorem errors_propagate_unhandled_witness :
    (Except.error "connection refused" : Except String (List Char))
        = Except.error "connection refused" ∧
    scrapePhrases (fun _ => []) (Except.error "connection refused")
        = Except.error "connection refused" ∧
    loadMatrix (Except.error "zoo.tab not found")
        = Except.error "zoo.tab not found" :=
  ⟨rfl,
    errors_propagate_unhandled (fun _ => []) (Except.error "connection refused")
      (Except.error "zoo.tab not found") "connection refused" "zoo.tab not found"
      rfl rfl⟩

/-- C5: the silhouette sweep visits every k from 2 to 19 inclusive in
increasing order, appends exactly one pair `(k, score(fit k))` per k, and
ends with 18 entries ordered by k. -/
theorem silhouetteSweep_spec (fitPredict : Nat → List Int) (sil : List Int → ℚ) :
    silhouetteSweep fitPredict sil
        = kRange.map (fun k => (k, sil (fitPredict k))) ∧
    (silhouetteSweep fitPredict sil).length = 18 ∧
    (silhouetteSweep fitPredict sil).map Prod.fst
        = [2, 3, 4, 5, 6, 7, 8, 9, 10, 11, 12, 13, 14, 15, 16, 17, 18, 19] ∧
    List.Pairwise (fun a b => a.1 < b.1) (silhouetteSweep fitPredict sil) := by
  have h : silhouetteSweep fitPredict sil
      = kRange.map (fun k => (k, sil (fitPredict k))) := by
    simpa [silhouetteSweep] using foldl_append_map (fun k => (k, sil (fitPredict k))) kRange []
  have hfst : ∀ (l : List Nat),
      (l.map (fun k => (k, sil (fitPredict k)))).map Prod.fst = l := by
    intro l
    induction l with
    | nil => rfl
    | cons a t ih => simp [ih]
  refine ⟨h, ?_, ?_, ?_⟩
  · rw [h]
    simp [kRange]
  · rw [h, hfst]
    decide
  · rw [h, List.pairwise_map]
    exact List.pairwise_lt_range' 2 18

/-- C4: the matrix handed to hierarchical clustering keeps every row of the
table, each row shortened by exactly its first and last entry, so column j
of the matrix is column j+1 of the table. -/
theorem ilocMatrix_spec {α : Type} (d : α) (df : List (List α)) (i j : Nat)
    (hi : i < df.length) (hj : j + 2 < (df.getD i []).length) :
    (ilocMatrix df).length = df.length ∧
    ((ilocMatrix df).getD i []).length = (df.getD i []).length - 2 ∧
    ((ilocMatrix df).getD i []).getD j d = (df.getD i []).getD (j + 1) d := by
  have hmap : (ilocMatrix df).getD i [] = ((df.getD i []).drop 1).dropLast := by
    have hi' : i < (ilocMatrix df).length := by simpa [ilocMatrix] using hi
    rw [List.getD_eq_getElem _ _ hi', List.getD_eq_getElem _ _ hi]
    simp [ilocMatrix]
  refine ⟨by simp [ilocMatrix], ?_, ?_⟩
  · rw [hmap]
    exact dropFirstLast_length _
  · rw [hmap]
    exact dropFirstLast_getD d _ j hj

/-- Witness for C4 on a concrete 2×4 table. -/
theorem ilocMatrix_spec_witness :
    0 < ([[1, 2, 3, 4], [5, 6, 7, 8]] : List (List Nat)).length ∧
    (ilocMatrix [[1, 2, 3, 4], [5, 6, 7, 8]]).length = 2 ∧
    ((ilocMatrix ([[1, 2, 3, 4], [5, 6, 7, 8]] : List (List Nat))).getD 0 []).length
        = ([[1, 2, 3, 4], [5, 6, 7, 8]].getD 0 ([] : List Nat)).length - 2 ∧
    ((ilocMatrix ([[1, 2, 3, 4], [5, 6, 7, 8]] : List (List Nat))).getD 0 []).getD 1 0
        = ([[1, 2, 3, 4], [5, 6, 7, 8]].getD 0 ([] : List Nat)).getD 2 0 :=
  ⟨by decide,
    (ilocMatrix_spec 0 [[1, 2, 3, 4], [5, 6, 7, 8]] 0 1 (by decide) (by decide)).1,
    (ilocMatrix_spec 0 [[1, 2, 3, 4], [5, 6, 7, 8]] 0 1 (by decide) (by decide)).2.1,
    (ilocMatrix_spec 0 [[1, 2, 3, 4], [5, 6, 7, 8]] 0 1 (by decide) (by decide)).2.2⟩

/-- C8: the membership loops print only non-negative cluster ids; the
DBSCAN outlier label -1 never appears among them, and any observation
labeled -1 is omitted from every printed membership list. -/
theorem printed_clusters_nonnegative (labels : List Int) :
    (∀ c ∈ printedClusterIds labels, 0 ≤ c) ∧
    (-1 : Int) ∉ printedClusterIds labels ∧
    ∀ i, labels.getD i 0 = -1 →
      ∀ e ∈ printedMembership labels, i ∉ e.2 := by
  have hmem : ∀ c ∈ printedClusterIds labels, 0 ≤ c := by
    intro c hc
    have h := List.of_mem_filter hc
    simpa using h
  refine ⟨hmem, ?_, ?_⟩
  · intro h
    have h0 := hmem _ h
    omega
  · intro i hi e he hin
    obtain ⟨cid, hcid, rfl⟩ := List.mem_map.mp he
    have h1 : 0 ≤ cid := hmem _ hcid
    have h2 : labels.getD i 0 = cid := by
      have h3 := List.of_mem_filter hin
      simpa using h3
    rw [hi] at h2
    omega

/-- Witness for C8 on the labels `[-1, 0, 2, -1]`: the id 0 is printed and
non-negative, -1 is not printed, and the observation 0 (labeled -1) is
absent from the membership entry `(0, [1])`. -/
theorem printed_clusters_nonnegative_witness :
    (0 : Int) ≤ 0 ∧
    (-1 : Int) ∉ printedClusterIds [-1, 0, 2, -1] ∧
    (0 : Nat) ∉ (((0 : Int), ([1] : List Nat))).2 :=
  ⟨(printed_clusters_nonnegative [-1, 0, 2, -1]).1 0 (by decide),
   (printed_clusters_nonnegative [-1, 0, 2, -1]).2.1,
   (printed_clusters_nonnegative [-1, 0, 2, -1]).2.2 0 (by decide)
     ((0 : Int), ([1] : List Nat)) (by decide)⟩

/-- C3: the averaging step is unguarded: the phrase "zz qq rr ss tt" passes
the 5-word length filter, yet its comprehension collects no vector, so
`np.mean` is reached with the empty list. -/
theorem empty_mean_reachable :
    5 ≤ (pySplit exPhrase2).length ∧
    charVectors exWords exPhrase2 = [] ∧
    rowOf exWords exPhrase2 = npMean [] := by
  decide

/-- C1 (the claim fails on the code): with the mapping `{"ab" ↦ [1]}` and
the retained phrase "ab ab ab ab ab", the comprehension iterates the
*characters* of the phrase, finds none of them as a key, and the row is the
mean of an empty list (nan) — not the mean `[1]` of the known word vectors
of the phrase, which the documentation describes. -/
theorem char_iteration_breaks_word_mean :
    5 ≤ (pySplit exPhrase).length ∧
    rowOf exWords exPhrase = none ∧
    meanWordVectorRow exWords exPhrase = some [1] ∧
    rowOf exWords exPhrase ≠ meanWordVectorRow exWords exPhrase := by
  have h : (pySplit exPhrase).filterMap (fun w => lookupKey exWords w)
      = [[1], [1], [1], [1], [1]] := by decide
  have hm : meanWordVectorRow exWords exPhrase = some [1] := by
    rw [meanWordVectorRow, h]
    simp [npMean, addVec]
    norm_num
  have hr : rowOf exWords exPhrase = none := by decide
  refine ⟨by decide, hr, hm, ?_⟩
  rw [hr, hm]
  simp

theorem dict_fold_mem (nlpVec : List Char → Vec) :
    ∀ (ws : List (List Char)) (m : List (List Char × Vec))
      (kv : List Char × Vec),
      kv ∈ ws.foldl
        (fun m w =>
          if nonzeroVec (nlpVec w) then dictInsert (lowerWord w) (nlpVec w) m
          else m) m →
      kv ∈ m ∨ ∃ w ∈ ws, kv = (lowerWord w, nlpVec w) ∧
        nonzeroVec (nlpVec w) = true
  | [], m, kv, h => Or.inl h
  | w :: ws, m, kv, h => by
    rcases dict_fold_mem nlpVec ws _ kv h with h' | ⟨w', hw', hkv, hnz⟩
    · by_cases hz : nonzeroVec (nlpVec w) = true
      · rw [show (fun m w =>
              if nonzeroVec (nlpVec w) = true then dictInsert (lowerWord w) (nlpVec w) m
              else m) m w
            = dictInsert (lowerWord w) (nlpVec w) m from by simp [hz]] at h'
        rcases List.mem_append.mp h' with hf | hl
        · exact Or.inl (List.mem_of_mem_filter hf)
        · right
          exact ⟨w, List.mem_cons_self w ws, List.mem_singleton.mp hl, hz⟩
      · rw [show (fun m w =>
              if nonzeroVec (nlpVec w) = true then dictInsert (lowerWord w) (nlpVec w) m
              else m) m w = m from by simp [hz]] at h'
        exact Or.inl h'
    · exact Or.inr ⟨w', List.mem_cons_of_mem w hw', hkv, hnz⟩

/-- C2: every binding of the word mapping arises from some word of the
scraped text: the key is that word lowercased, the value is that word's
embedding vector, and the value is never the all-zero vector. -/
theorem buildWords_invariant (nlpVec : List Char → Vec) (raw : List Char)
    (kv : List Char × Vec) (hkv : kv ∈ buildWords nlpVec raw) :
    (∃ w ∈ pySplit raw, kv.1 = lowerWord w ∧ kv.2 = nlpVec w) ∧
    nonzeroVec kv.2 = true := by
  rcases dict_fold_mem nlpVec ((pySplit raw).dedup) [] kv hkv with h | ⟨w, hw, hkveq, hnz⟩
  · cases h
  · subst hkveq
    exact ⟨⟨w, List.mem_dedup.mp hw, rfl, rfl⟩, hnz⟩

/-- Witness for C2: the binding `("ab", [1])` of the mapping built from the
text "ab" comes from the word "ab", lowercased, with a nonzero vector. -/
theorem buildWords_invariant_witness :
    ((['a', 'b'], ([1] : Vec)) ∈ buildWords exNlpVec exRaw) ∧
    (∃ w ∈ pySplit exRaw, (['a', 'b'] : List Char) = lowerWord w ∧
        ([1] : Vec) = exNlpVec w) ∧
    nonzeroVec ([1] : Vec) = true :=
  ⟨by decide,
   (buildWords_invariant exNlpVec exRaw (['a', 'b'], [1]) (by decide)).1,
   (buildWords_invariant exNlpVec exRaw (['a', 'b'], [1]) (by decide)).2⟩

theorem filterMap_guard_eq_filter_map {α β : Type} (P : α → Prop)
    [DecidablePred P] (g : α → β) (l : List α) :
    l.filterMap (fun a => if P a then some (g a) else none)
      = (l.filter (fun a => decide (P a))).map g := by
  induction l with
  | nil => rfl
  | cons a t ih =>
    by_cases h : P a <;> simp [List.filterMap_cons, h, ih]

/-- C10: the sentence-embedding matrix holds exactly one row per phrase
with at least 5 whitespace-separated words, in the original phrase order;
inserting a shorter phrase anywhere leaves the matrix unchanged. -/
theorem sentenceMatrix_spec (words : List (List Char × Vec))
    (phrases l₁ l₂ : List (List Char)) (p : List Char)
    (hp : (pySplit p).length < 5) :
    sentenceMatrix words phrases
        = (phrases.filter (fun q => decide (5 ≤ (pySplit q).length))).map (rowOf words) ∧
    (sentenceMatrix words phrases).length
        = phrases.countP (fun q => decide (5 ≤ (pySplit q).length)) ∧
    sentenceMatrix words (l₁ ++ p :: l₂) = sentenceMatrix words (l₁ ++ l₂) := by
  have hmain : ∀ (ps : List (List Char)),
      sentenceMatrix words ps
        = (ps.filter (fun q => decide (5 ≤ (pySplit q).length))).map (rowOf words) := by
    intro ps
    exact filterMap_guard_eq_filter_map (fun q => 5 ≤ (pySplit q).length) (rowOf words) ps
  have hnp : ¬ (5 ≤ (pySplit p).length) := by omega
  refine ⟨hmain phrases, ?_, ?_⟩
  · rw [hmain phrases, List.length_map, List.countP_eq_length_filter]
  · rw [hmain (l₁ ++ p :: l₂), hmain (l₁ ++ l₂)]
    simp [List.filter_append, hnp]

/-- Witness for C10: appending the 2-word phrase "hi" after the retained
phrase changes nothing. -/
theorem sentenceMatrix_spec_witness :
    (pySplit "hi".data).length < 5 ∧
    sentenceMatrix exWords ([exPhrase2] ++ "hi".data :: [])
        = sentenceMatrix exWords ([exPhrase2] ++ []) :=
  ⟨by decide,
   (sentenceMatrix_spec exWords [] [exPhrase2] [] "hi".data (by decide)).2.2⟩

theorem argsortAsc_perm (row : List ℚ) :
    (argsortAsc row).Perm (List.range row.length) :=
  List.perm_insertionSort _ _

theorem argsortAsc_sorted (row : List ℚ) :
    (argsortAsc row).Pairwise (fun a b => row.getD a 0 ≤ row.getD b 0) := by
  haveI : IsTotal Nat (fun a b => row.getD a 0 ≤ row.getD b 0) :=
    ⟨fun a b => le_total _ _⟩
  haveI : IsTrans Nat (fun a b => row.getD a 0 ≤ row.getD b 0) :=
    ⟨fun a b c hab hbc => le_trans hab hbc⟩
  exact List.sorted_insertionSort _ _

theorem centroidsRowOrder_sorted (row : List ℚ) :
    (centroidsRowOrder row).Pairwise (fun a b => row.getD b 0 ≤ row.getD a 0) := by
  rw [centroidsRowOrder, List.pairwise_reverse]
  exact argsortAsc_sorted row

theorem centroidsRowOrder_length (row : List ℚ) :
    (centroidsRowOrder row).length = row.length := by
  rw [centroidsRowOrder, List.length_reverse, (argsortAsc_perm row).length_eq,
    List.length_range]

theorem mem_centroidsRowOrder (row : List ℚ) (j : Nat) :
    j ∈ centroidsRowOrder row ↔ j < row.length := by
  rw [centroidsRowOrder, List.mem_reverse, (argsortAsc_perm row).mem_iff]
  exact List.mem_range

theorem centroidsRowOrder_nodup (row : List ℚ) :
    (centroidsRowOrder row).Nodup := by
  rw [centroidsRowOrder, List.nodup_reverse]
  exact ((argsortAsc_perm row).nodup_iff).mpr (List.nodup_range _)

/-- C9: for a centroid row long enough, the printed list holds exactly
`num_words = 5` vocabulary terms, at distinct vocabulary positions, in
non-increasing order of centroid weight, and no unselected position has a
larger weight than any selected one. -/
theorem topTerms_spec (terms : List (List Char)) (row : List ℚ)
    (hterms : terms.length = row.length) (hlen : numWords ≤ row.length) :
    numWords = 5 ∧
    (topTerms terms row).length = numWords ∧
    (topTermIndices row).Nodup ∧
    (∀ j ∈ topTermIndices row, j < terms.length) ∧
    (topTermIndices row).Pairwise (fun i j => row.getD j 0 ≤ row.getD i 0) ∧
    (∀ j, j < row.length → j ∉ topTermIndices row →
      ∀ i ∈ topTermIndices row, row.getD j 0 ≤ row.getD i 0) := by
  have hclen : (centroidsRowOrder row).length = row.length :=
    centroidsRowOrder_length row
  refine ⟨rfl, ?_, ?_, ?_, ?_, ?_⟩
  · rw [topTerms, List.length_map, topTermIndices, List.length_take, hclen]
    omega
  · exact ((centroidsRowOrder_nodup row).sublist (List.take_sublist _ _))
  · intro j hj
    have hj' : j ∈ centroidsRowOrder row := List.mem_of_mem_take hj
    rw [hterms]
    exact (mem_centroidsRowOrder row j).mp hj'
  · exact ((centroidsRowOrder_sorted row).sublist (List.take_sublist _ _))
  · intro j hjlt hjnot i hi
    have hsplit := List.take_append_drop numWords (centroidsRowOrder row)
    have hpair := centroidsRowOrder_sorted row
    rw [← hsplit] at hpair
    have hmemj : j ∈ centroidsRowOrder row := (mem_centroidsRowOrder row j).mpr hjlt
    rw [← hsplit] at hmemj
    rcases List.mem_append.mp hmemj with hjt | hjd
    · exact absurd hjt hjnot
    · exact ((List.pairwise_append.mp hpair).2.2 i hi j hjd)

/-- Witness for C9: a 6-column vocabulary and the centroid row
`[3, 1, 4, 1, 5, 9]`: exactly five distinct top terms are printed. -/
theorem topTerms_spec_witness :
    ([['a'], ['b'], ['c'], ['d'], ['e'], ['f']] : List (List Char)).length
        = ([3, 1, 4, 1, 5, 9] : List ℚ).length ∧
    numWords ≤ ([3, 1, 4, 1, 5, 9] : List ℚ).length ∧
    (topTerms [['a'], ['b'], ['c'], ['d'], ['e'], ['f']]
        ([3, 1, 4, 1, 5, 9] : List ℚ)).length = numWords ∧
    (topTermIndices ([3, 1, 4, 1, 5, 9] : List ℚ)).Nodup :=
  ⟨by decide, by decide,
   (topTerms_spec [['a'], ['b'], ['c'], ['d'], ['e'], ['f']]
      [3, 1, 4, 1, 5, 9] (by decide) (by decide)).2.1,
   (topTerms_spec [['a'], ['b'], ['c'], ['d'], ['e'], ['f']]
      [3, 1, 4, 1, 5, 9] (by decide) (by decide)).2.2.1⟩
